import Mathlib

/-!
Verification of the couch-kit host-authoritative session engine.

The definitions below are shallow embeddings of the TypeScript sources:

* `decodeFrame`, `codecRun`, `codecFeed` — the WebSocket frame codec
  (`packages/host/src/websocket.ts`, `decodeFrame` and the `processFrames`
  accumulate-then-decode loop).
* `createGameReducer` — the internal-action reducer wrapper
  (`packages/core/src/types.ts`).
* `replayActions` — the offline replay engine (`packages/core/src/replay.ts`).
* `dispatchMW` — the middleware pipeline (`middleware.ts`, `applyMiddleware`).
* `HostState` operations — the provider message/disconnect handlers
  (`packages/host/src/provider.tsx`).

Maps that the source keeps as JavaScript `Map` objects are embedded as
functions into `Option`; object spread updates become pointwise function
updates. Timestamps are integers.
-/

/- ===================== Core data model (packages/core/src/types.ts) ===================== -/

/-- A player record: `IPlayer` from `types.ts`. -/
structure Player where
  pid : String
  pname : String
  avatar : Option String
  isHost : Bool
  connected : Bool
deriving DecidableEq, Repr

/-- Canonical game state: `IGameState` (`status` plus the `players` map), with an
`ext` field standing for the application-defined remainder of the state record. -/
structure GameState (E : Type) where
  status : String
  players : String → Option Player
  ext : E

/-- Payload shapes that can sit in an action: a whole state (`__HYDRATE__`),
a join profile, a bare `playerId`, or a user-defined payload. -/
inductive APayload (E U : Type) where
  | hydrateP (st : GameState E)
  | joinP (jid jname : String) (avatar : Option String)
  | pidP (playerId : String)
  | userP (u : U)
  | emptyP

/-- An action: `IAction` — a `type` string, a payload, and an optional `playerId`
attached by the host when dispatching a client action. -/
structure GAction (E U : Type) where
  typ : String
  payload : APayload E U
  actorId : Option String

/-- Internal action type strings reserved by the engine (the five members of
`InternalActionTypes` in the current core package). -/
def internalTypeStrings : List String :=
  ["__HYDRATE__", "__PLAYER_JOINED__", "__PLAYER_LEFT__",
   "__PLAYER_RECONNECTED__", "__PLAYER_REMOVED__"]

/-- `createGameReducer` from `packages/core/src/types.ts`: wraps a user reducer
with handling of `__HYDRATE__` (replace state wholesale), `__PLAYER_JOINED__`
(add a connected player under the given id) and `__PLAYER_LEFT__` (mark the
player disconnected; unknown player returns the input state unchanged). Other
action types fall through to the user reducer. A payload whose shape does not
match its type string is behind an unchecked TypeScript cast in the source;
those combinations are never built by the engine and are embedded as no-ops. -/
def createGameReducer {E U : Type} (r : GameState E → GAction E U → GameState E) :
    GameState E → GAction E U → GameState E := fun state action =>
  if action.typ = "__HYDRATE__" then
    match action.payload with
    | .hydrateP s => s
    | _ => state
  else if action.typ = "__PLAYER_JOINED__" then
    match action.payload with
    | .joinP jid jname avatar =>
        { state with players := fun q =>
            if q = jid then some ⟨jid, jname, avatar, false, true⟩ else state.players q }
    | _ => state
  else if action.typ = "__PLAYER_LEFT__" then
    match action.payload with
    | .pidP playerId =>
        match state.players playerId with
        | none => state
        | some player =>
            { state with players := fun q =>
                if q = playerId then some { player with connected := false }
                else state.players q }
    | _ => state
  else r state action

/- ===================== Replay engine (packages/core/src/replay.ts) ===================== -/

/-- A recorded action with its timestamp (`RecordedAction`). -/
structure RecordedAction (A : Type) where
  action : A
  timestamp : Int

/-- A per-step snapshot produced during replay (`StateSnapshot`). -/
structure StateSnapshot (S A : Type) where
  state : S
  action : A
  timestamp : Int
  index : Nat

/-- A recording consumed by the replay engine (`Recording`; the `metadata`
field is never read by `replayActions` and is omitted). -/
structure Recording (S A : Type) where
  initialState : S
  actions : List (RecordedAction A)
  startTimestamp : Int
  endTimestamp : Option Int

/-- The result of a replay (`ReplayResult`). -/
structure ReplayResult (S A : Type) where
  finalState : S
  snapshots : List (StateSnapshot S A)
  duration : Int
  actionCount : Nat

/-- The `for` loop body of `replayActions`: apply each recorded action in order,
collecting one snapshot per action carrying the post-action state and the
running index. -/
def replayGo {S A : Type} (r : S → A → S) :
    S → Nat → List (RecordedAction A) → S × List (StateSnapshot S A)
  | s, _, [] => (s, [])
  | s, i, ra :: rest =>
      let s2 := r s ra.action
      let tail := replayGo r s2 (i + 1) rest
      (tail.1, ⟨s2, ra.action, ra.timestamp, i⟩ :: tail.2)

/-- `replayActions` from `replay.ts`: fold the recording through the reducer and
compute `duration = (endTimestamp ?? lastActionTimestamp ?? startTimestamp) -
startTimestamp`. -/
def replayActions {S A : Type} (rec : Recording S A) (r : S → A → S) :
    ReplayResult S A :=
  let run := replayGo r rec.initialState 0 rec.actions
  let endTs : Int :=
    match rec.endTimestamp with
    | some t => t
    | none =>
        match rec.actions.getLast? with
        | some ra => ra.timestamp
        | none => rec.startTimestamp
  { finalState := run.1
    snapshots := run.2
    duration := endTs - rec.startTimestamp
    actionCount := rec.actions.length }

/-- State reached after applying the first `k` recorded actions. -/
def replayStateAfter {S A : Type} (r : S → A → S) (s0 : S)
    (acts : List (RecordedAction A)) (k : Nat) : S :=
  (acts.take k).foldl (fun s ra => r s ra.action) s0

/- ===================== Middleware pipeline (middleware.ts, applyMiddleware) ===================== -/

/-- Behaviours a middleware handler can exhibit in the dispatch model. Each is a
three-stage `api → next → action` closure as in `middleware.ts`; the model
covers handlers that forward transparently, throw before or after invoking
`next`, or record `api.getState()` before or after invoking `next` (the shapes
exercised by the package test-suite). -/
inductive MWBehavior where
  | transparent
  | throwBefore
  | throwAfter
  | observeBefore
  | observeAfter
deriving DecidableEq, Repr

/-- The mutable environment threaded through a dispatch: `currentState` (the
ref read by `api.getState()`), a counter of how many times the underlying
reducer ran, and a log of every `getState()` observation made by a middleware
(tagged `true` when the observation happened after that layer invoked `next`). -/
structure MWState (S : Type) where
  cur : S
  reducerCalls : Nat
  observedLog : List (Bool × S)

/-- A dispatch function: takes the mutable environment, returns the updated
environment and the returned state value. -/
def MWDispatch (S : Type) : Type := MWState S → MWState S × S

/-- The innermost dispatch of `applyMiddleware`: run the reducer on
`currentState`, store the result back into the ref, return it. -/
def mwBaseDispatch {S A : Type} (r : S → A → S) (a : A) : MWDispatch S := fun st =>
  let s2 := r st.cur a
  ({ st with cur := s2, reducerCalls := st.reducerCalls + 1 }, s2)

/-- Semantics of one middleware handler body: returns the environment after the
body ran, whether the handler invoked `next`, and either the returned value or
a thrown exception (`Except.error`). -/
def mwRunHandler {S : Type} (b : MWBehavior) (next : MWDispatch S) (st : MWState S) :
    MWState S × Bool × Except Unit S :=
  match b with
  | .transparent =>
      let p := next st
      (p.1, true, .ok p.2)
  | .throwBefore => (st, false, .error ())
  | .throwAfter =>
      let p := next st
      (p.1, true, .error ())
  | .observeBefore =>
      let st0 := { st with observedLog := st.observedLog ++ [(false, st.cur)] }
      let p := next st0
      (p.1, true, .ok p.2)
  | .observeAfter =>
      let p := next st
      ({ p.1 with observedLog := p.1.observedLog ++ [(true, p.1.cur)] }, true, .ok p.2)

/-- One composed layer of `applyMiddleware`: the error boundary around a
handler. On a throw it returns `api.getState()` when the handler had already
invoked `next` (preventing a second dispatch), and otherwise forwards the
action to `next` itself. -/
def mwBoundary {S : Type} (b : MWBehavior) (next : MWDispatch S) : MWDispatch S := fun st =>
  match mwRunHandler b next st with
  | (st2, _, .ok v) => (st2, v)
  | (st2, nextCalled, .error _) =>
      if nextCalled then (st2, st2.cur) else next st2

/-- The full dispatch chain: `chain.reduceRight((next, layer) => layer(next),
baseDispatch)` — the first middleware in the list is outermost. -/
def mwChain {S A : Type} (r : S → A → S) (mws : List MWBehavior) (a : A) : MWDispatch S :=
  mws.foldr mwBoundary (mwBaseDispatch r a)

/-- The reducer returned by `applyMiddleware(...middlewares)(reducer)`: seed the
`currentState` ref with the incoming state, then run the dispatch chain. -/
def dispatchMW {S A : Type} (r : S → A → S) (mws : List MWBehavior) (s0 : S) (a : A) :
    MWState S × S :=
  mwChain r mws a { cur := s0, reducerCalls := 0, observedLog := [] }

/- ===================== Host session engine (packages/host/src/provider.tsx) ===================== -/

/-- Maximum actions per rate-limit window (`RATE_LIMIT_MAX`). -/
def RATE_LIMIT_MAX : Nat := 60

/-- Rate-limit window duration in ms (`RATE_LIMIT_WINDOW`). -/
def RATE_LIMIT_WINDOW : Int := 1000

/-- Per-session rate-limit bookkeeping (`{ count, windowStart }`). -/
structure RateInfo where
  count : Nat
  windowStart : Int
deriving DecidableEq, Repr

/-- The `action` tag attached to a `STATE_UPDATE` payload: omitted, a single
action, or an array of actions — the three mutually exclusive shapes built by
`broadcastState`. -/
inductive ActionTag (E U : Type) where
  | noTag
  | oneTag (a : GAction E U)
  | manyTag (as : List (GAction E U))

/-- Host-to-client messages sent by the handlers modelled here (`ERROR` and
`STATE_UPDATE`; `WELCOME`/`RECONNECTED` delivery is queued via
`pendingWelcome` and sent by a separate effect, `PONG` is stateless). -/
inductive HostMsg (E U : Type) where
  | errorMsg (socketId code message : String)
  | stateUpdate (newState : GameState E) (timestamp : Int) (tag : ActionTag E U)

/-- The mutable host bookkeeping of `GameHostProvider`: the canonical game
state plus the session maps (`sessions`, `reverseMap`, `socketIdToPlayerId`,
`cleanupTimers`, `rateLimits`, `assetsLoaded`, `welcomedClients`,
`pendingWelcome`) and the pending-action queue for broadcasts. A pending
cleanup timer is recorded as the secret captured by its callback closure. -/
structure HostState (E U : Type) where
  game : GameState E
  sessions : String → Option String
  reverseMap : String → Option String
  socketIdToPlayerId : String → Option String
  cleanupTimers : String → Option String
  rateLimits : String → Option RateInfo
  actionQueue : List (GAction E U)
  assetsLoaded : String → Option Bool
  welcomedClients : String → Bool
  pendingWelcome : String → Option (String × Bool)

/-- Modelled from the spec: `__PLAYER_RECONNECTED__` and `__PLAYER_REMOVED__`
handling of the released `createGameReducer`. The core sources in this tree
predate these two internal actions (only the provider, which dispatches them,
is present), so their state effect is taken from the spec: reconnect restores
the existing player (marks it connected again), removal permanently drops the
player's entry from `players`. All other action types behave exactly as the
source `createGameReducer`. -/
def hostGameReducer {E U : Type} (r : GameState E → GAction E U → GameState E) :
    GameState E → GAction E U → GameState E := fun state action =>
  if action.typ = "__PLAYER_RECONNECTED__" then
    match action.payload with
    | .pidP playerId =>
        match state.players playerId with
        | none => state
        | some player =>
            { state with players := fun q =>
                if q = playerId then some { player with connected := true }
                else state.players q }
    | _ => state
  else if action.typ = "__PLAYER_REMOVED__" then
    match action.payload with
    | .pidP playerId =>
        { state with players := fun q => if q = playerId then none else state.players q }
    | _ => state
  else createGameReducer r state action

/-- Modelled from the spec: `isValidSecret` (not among the sources; the spec
only requires a format check on the opaque secret). Embedded as a nonempty
check; the claims only use it under a validity hypothesis. -/
def isValidSecret (secret : String) : Bool := secret.length > 0

/-- The resolved-identity part of the `JOIN` handler: current-scheme derivation
first, falling back to the legacy derivation only when the state has no player
under the current id but does have one under the legacy id. `cur` and `leg`
stand for the imported `derivePlayerId` / `derivePlayerIdLegacy` functions. -/
def resolveJoinId {E : Type} (cur leg : String → String) (g : GameState E)
    (secret : String) : String :=
  let hashedId := cur secret
  let legacyId := leg secret
  if (g.players hashedId).isNone ∧ (g.players legacyId).isSome then legacyId else hashedId

/-- The body of the `JOIN` handler after the secret passed validation and
`derivePlayerId` resolved (the `.then` callback in `provider.tsx`): cache the
resolved id, update the session maps, cancel any pending cleanup timer, then
dispatch `__PLAYER_RECONNECTED__` for a returning player or
`__PLAYER_JOINED__` for a new one and queue the corresponding welcome. -/
def processJoin {E U : Type} (cur leg : String → String)
    (r : GameState E → GAction E U → GameState E) (h : HostState E U)
    (socketId secret pname : String) (avatar : Option String) : HostState E U :=
  let playerId := resolveJoinId cur leg h.game secret
  let h1 : HostState E U := { h with
    socketIdToPlayerId := fun s => if s = socketId then some playerId else h.socketIdToPlayerId s
    sessions := fun s => if s = secret then some socketId else h.sessions s
    reverseMap := fun s => if s = socketId then some secret else h.reverseMap s
    cleanupTimers := fun p => if p = playerId then none else h.cleanupTimers p }
  if (h.game.players playerId).isSome then
    { h1 with
      game := hostGameReducer r h1.game ⟨"__PLAYER_RECONNECTED__", .pidP playerId, none⟩
      assetsLoaded := fun p => if p = playerId then some false else h1.assetsLoaded p
      pendingWelcome := fun s => if s = socketId then some (playerId, true) else h1.pendingWelcome s }
  else
    { h1 with
      game := hostGameReducer r h1.game ⟨"__PLAYER_JOINED__", .joinP playerId pname avatar, none⟩
      assetsLoaded := fun p => if p = playerId then some false else h1.assetsLoaded p
      pendingWelcome := fun s => if s = socketId then some (playerId, false) else h1.pendingWelcome s }

/-- The full `JOIN` message handler: reject an invalid secret with an
`INVALID_SECRET` error, otherwise run the join body. -/
def processJoinMsg {E U : Type} (cur leg : String → String)
    (r : GameState E → GAction E U → GameState E) (h : HostState E U)
    (socketId secret pname : String) (avatar : Option String) :
    HostState E U × List (HostMsg E U) :=
  if isValidSecret secret then
    (processJoin cur leg r h socketId secret pname avatar, [])
  else
    (h, [.errorMsg socketId "INVALID_SECRET" "Invalid or missing session secret"])

/-- The `disconnect` handler (`server.on("disconnect")`): drop the socket's
bookkeeping, and — only when this socket is still the registered connection
for its secret (the race guard) — dispatch `__PLAYER_LEFT__` and start the
disconnect-grace cleanup timer for the player. -/
def onDisconnect {E U : Type} (r : GameState E → GAction E U → GameState E)
    (h : HostState E U) (socketId : String) : HostState E U :=
  let h0 : HostState E U := { h with
    welcomedClients := fun s => if s = socketId then false else h.welcomedClients s
    socketIdToPlayerId := fun s => if s = socketId then none else h.socketIdToPlayerId s
    reverseMap := fun s => if s = socketId then none else h.reverseMap s
    rateLimits := fun s => if s = socketId then none else h.rateLimits s }
  match h.socketIdToPlayerId socketId, h.reverseMap socketId with
  | some playerId, some secret =>
      let h1 : HostState E U :=
        { h0 with assetsLoaded := fun p => if p = playerId then none else h0.assetsLoaded p }
      if h.sessions secret = some socketId then
        { h1 with
          game := hostGameReducer r h1.game ⟨"__PLAYER_LEFT__", .pidP playerId, none⟩
          cleanupTimers := fun p => if p = playerId then some secret else h1.cleanupTimers p }
      else
        h1
  | _, _ => h0

/-- The disconnect-grace timer callback (the `setTimeout` body in the
disconnect handler). A cancelled timer never fires, so the callback is a no-op
unless the timer is still pending; when it fires it drops the timer and the
secret's session entry and dispatches `__PLAYER_REMOVED__`. -/
def onTimerFire {E U : Type} (r : GameState E → GAction E U → GameState E)
    (h : HostState E U) (playerId : String) : HostState E U :=
  match h.cleanupTimers playerId with
  | none => h
  | some secret =>
      { h with
        cleanupTimers := fun p => if p = playerId then none else h.cleanupTimers p
        sessions := fun s => if s = secret then none else h.sessions s
        game := hostGameReducer r h.game ⟨"__PLAYER_REMOVED__", .pidP playerId, none⟩ }

/-- The `ACTION` message handler: reject reserved internal types with
`FORBIDDEN_ACTION`; refresh the rate-limit window when elapsed, count the
action, and reject with `RATE_LIMITED` beyond `RATE_LIMIT_MAX`; otherwise
attach the cached player id, dispatch through the reducer and queue the action
for the next broadcast. -/
def processActionMsg {E U : Type} (r : GameState E → GAction E U → GameState E)
    (h : HostState E U) (socketId : String) (act : GAction E U) (now : Int) :
    HostState E U × List (HostMsg E U) :=
  if act.typ ∈ internalTypeStrings then
    (h, [.errorMsg socketId "FORBIDDEN_ACTION"
          "Internal action types cannot be dispatched by clients"])
  else
    let info0 : RateInfo :=
      match h.rateLimits socketId with
      | some ri => if now - ri.windowStart > RATE_LIMIT_WINDOW then ⟨0, now⟩ else ri
      | none => ⟨0, now⟩
    let info1 : RateInfo := { info0 with count := info0.count + 1 }
    let h1 : HostState E U :=
      { h with rateLimits := fun s => if s = socketId then some info1 else h.rateLimits s }
    if info1.count > RATE_LIMIT_MAX then
      (h1, [.errorMsg socketId "RATE_LIMITED" "Too many actions, slow down"])
    else
      ({ h1 with
          game := hostGameReducer r h1.game { act with actorId := h.socketIdToPlayerId socketId }
          actionQueue := h1.actionQueue ++ [act] }, [])

/-- Run a sequence of `ACTION` messages from one session, collecting the
outgoing messages in order. -/
def runActionMsgs {E U : Type} (r : GameState E → GAction E U → GameState E)
    (socketId : String) :
    HostState E U → List (GAction E U × Int) → HostState E U × List (HostMsg E U)
  | h, [] => (h, [])
  | h, (a, t) :: rest =>
      let step := processActionMsg r h socketId a t
      let tail := runActionMsgs r socketId step.1 rest
      (tail.1, step.2 ++ tail.2)

/-- `broadcastState`: empty the pending-action queue and build the
`STATE_UPDATE` payload carrying the latest canonical state, tagged with the
single action, the array of actions, or nothing, depending on how many actions
were dispatched since the previous flush. -/
def broadcastFlush {E U : Type} (h : HostState E U) (now : Int) :
    HostState E U × HostMsg E U :=
  let actions := h.actionQueue
  let tag : ActionTag E U :=
    match actions with
    | [] => .noTag
    | [a] => .oneTag a
    | a :: b :: rest => .manyTag (a :: b :: rest)
  ({ h with actionQueue := [] }, .stateUpdate h.game now tag)

/- ===================== Frame codec (packages/host/src/websocket.ts) ===================== -/

/-- A decoded WebSocket frame: opcode and (unmasked) payload bytes. -/
structure WsFrame where
  opcode : Nat
  payload : List Nat
deriving DecidableEq, Repr

/-- Read a byte of the buffer (in-range reads only ever happen behind the
length guards, exactly as in the source). -/
def byteAt (b : List Nat) (i : Nat) : Nat := b.getD i 0

/-- The length-decoding step of `decodeFrame`: from the 7-bit length field,
compute `(payloadLength, headerLength)` — short form, 16-bit extended form, or
64-bit extended form (whose upper 32 bits must be zero, otherwise the source
throws "Frame payload too large", embedded as `Except.error`). `Except.ok
none` means the buffer is too short to hold the extended length yet. -/
def wsHeaderPlan (buffer : List Nat) : Except Unit (Option (Nat × Nat)) :=
  let payloadLength7 := byteAt buffer 1 &&& 0x7f
  if payloadLength7 = 126 then
    if buffer.length < 4 then .ok none
    else .ok (some (byteAt buffer 2 * 256 + byteAt buffer 3, 4))
  else if payloadLength7 = 127 then
    if buffer.length < 10 then .ok none
    else
      let highBits := ((byteAt buffer 2 * 256 + byteAt buffer 3) * 256
        + byteAt buffer 4) * 256 + byteAt buffer 5
      if highBits > 0 then .error ()
      else .ok (some (((byteAt buffer 6 * 256 + byteAt buffer 7) * 256
        + byteAt buffer 8) * 256 + byteAt buffer 9, 10))
  else .ok (some (payloadLength7, 2))

/-- `decodeFrame` from `websocket.ts`. Returns `Except.ok none` when the buffer
holds an incomplete prefix (wait for more bytes), `Except.ok (some (frame,
bytesConsumed))` for a complete frame, and `Except.error ()` for the thrown
"Frame payload too large" when the upper 32 bits of a 64-bit length are
nonzero. -/
def decodeFrame (buffer : List Nat) : Except Unit (Option (WsFrame × Nat)) :=
  if buffer.length < 2 then .ok none
  else
    match wsHeaderPlan buffer with
    | .error e => .error e
    | .ok none => .ok none
    | .ok (some (payloadLength, headerLength)) =>
      let maskLength := if byteAt buffer 1 &&& 0x80 ≠ 0 then 4 else 0
      let totalFrameLength := headerLength + maskLength + payloadLength
      if buffer.length < totalFrameLength then .ok none
      else
        let payload : List Nat :=
          if byteAt buffer 1 &&& 0x80 ≠ 0 then
            let mask := (buffer.drop headerLength).take 4
            let maskedPayload := (buffer.drop (headerLength + 4)).take payloadLength
            (List.range payloadLength).map
              (fun i => (maskedPayload.getD i 0) ^^^ (mask.getD (i % 4) 0))
          else
            (buffer.drop headerLength).take payloadLength
        .ok (some (⟨byteAt buffer 0 &&& 0x0f, payload⟩, totalFrameLength))

/-- The outcome of one run of the `processFrames` while-loop: the frames
decoded (in order), the remaining buffer handed to `setBuffer`, whether the
socket was destroyed by a close frame (which breaks the loop), and whether
`decodeFrame` threw (in which case `setBuffer` is never reached). -/
structure CodecRun where
  frames : List WsFrame
  rest : List Nat
  destroyed : Bool
  errored : Bool
deriving DecidableEq, Repr

/-- A successful header plan uses one of the three header sizes, all at least 2. -/
theorem wsHeaderPlan_header {b : List Nat} {len hdr : Nat}
    (h : wsHeaderPlan b = .ok (some (len, hdr))) : hdr = 2 ∨ hdr = 4 ∨ hdr = 10 := by
  unfold wsHeaderPlan at h
  dsimp only at h
  by_cases h126 : byteAt b 1 &&& 0x7f = 126
  · rw [if_pos h126] at h
    split at h
    · simp at h
    · simp only [Except.ok.injEq, Option.some.injEq, Prod.mk.injEq] at h
      omega
  · rw [if_neg h126] at h
    by_cases h127 : byteAt b 1 &&& 0x7f = 127
    · rw [if_pos h127] at h
      split at h
      · simp at h
      · split at h
        · simp at h
        · simp only [Except.ok.injEq, Option.some.injEq, Prod.mk.injEq] at h
          omega
    · rw [if_neg h127] at h
      simp only [Except.ok.injEq, Option.some.injEq, Prod.mk.injEq] at h
      omega

/-- A successful decode consumes at least the two header bytes and never more
than the buffer holds. -/
theorem decodeFrame_consumed {b : List Nat} {f : WsFrame} {n : Nat}
    (h : decodeFrame b = .ok (some (f, n))) : 2 ≤ n ∧ n ≤ b.length := by
  unfold decodeFrame at h
  split at h
  · simp at h
  · rename_i hlen
    cases hp : wsHeaderPlan b with
    | error e => rw [hp] at h; simp at h
    | ok o =>
      cases o with
      | none => rw [hp] at h; simp at h
      | some p =>
        obtain ⟨len, hdr⟩ := p
        rw [hp] at h
        dsimp only at h
        have hh := wsHeaderPlan_header hp
        by_cases hm : byteAt b 1 &&& 0x80 ≠ 0
        · rw [if_pos hm, if_pos hm] at h
          split at h
          · simp at h
          · rename_i htot
            simp only [Except.ok.injEq, Option.some.injEq, Prod.mk.injEq] at h
            obtain ⟨-, hn⟩ := h
            omega
        · rw [if_neg hm, if_neg hm] at h
          split at h
          · simp at h
          · rename_i htot
            simp only [Except.ok.injEq, Option.some.injEq, Prod.mk.injEq] at h
            obtain ⟨-, hn⟩ := h
            omega

/-- The `while (buffer.length > 0)` loop of `processFrames`: decode and consume
complete frames one after another; stop on an incomplete prefix (keeping the
buffer), on a close frame (opcode `0x8`, which destroys the socket), or on a
thrown decode error. -/
def codecRun (buf : List Nat) : CodecRun :=
  if buf.length = 0 then ⟨[], buf, false, false⟩
  else
    match hd : decodeFrame buf with
    | .error _ => ⟨[], buf, false, true⟩
    | .ok none => ⟨[], buf, false, false⟩
    | .ok (some (f, n)) =>
        let rest := buf.drop n
        if f.opcode = 0x8 then ⟨[f], rest, true, false⟩
        else
          let r := codecRun rest
          ⟨f :: r.frames, r.rest, r.destroyed, r.errored⟩
termination_by buf.length
decreasing_by
  have := decodeFrame_consumed hd
  simp only [List.length_drop]
  omega

/-- The accumulated per-socket receive state: the `buffer` closure variable of
the `data` handler, every frame decoded so far, and the destroyed/errored
flags. -/
structure FeedState where
  buffer : List Nat
  frames : List WsFrame
  destroyed : Bool
  errored : Bool
deriving DecidableEq, Repr

/-- One `data` event delivering one chunk: a destroyed socket receives nothing;
otherwise the chunk is appended to the buffer and the frame loop runs. When
the loop throws, `setBuffer` is never called, so the concatenated buffer is
kept as-is (the frames decoded before the throw were already emitted). -/
def codecFeed (st : FeedState) (chunk : List Nat) : FeedState :=
  if st.destroyed then st
  else
    let acc := st.buffer ++ chunk
    let r := codecRun acc
    if r.errored then
      { buffer := acc, frames := st.frames ++ r.frames, destroyed := false
        errored := true }
    else
      { buffer := r.rest, frames := st.frames ++ r.frames, destroyed := r.destroyed
        errored := st.errored }

/-- Deliver a list of chunks one `data` event at a time, starting from an empty
buffer. -/
def codecFeedAll (chunks : List (List Nat)) : FeedState :=
  chunks.foldl codecFeed ⟨[], [], false, false⟩

/- ===================== Reduction equations for the internal actions ===================== -/

/-- `__PLAYER_JOINED__` adds (or overwrites) the named player as connected. -/
theorem createGameReducer_joined {E U : Type}
    (r : GameState E → GAction E U → GameState E) (s : GameState E)
    (jid jname : String) (avatar : Option String) (actor : Option String) :
    createGameReducer r s ⟨"__PLAYER_JOINED__", .joinP jid jname avatar, actor⟩ =
      { s with players := fun q =>
          if q = jid then some ⟨jid, jname, avatar, false, true⟩ else s.players q } := by
  simp [createGameReducer]

/-- `__PLAYER_LEFT__` for an unknown player returns the state unchanged. -/
theorem createGameReducer_left_absent {E U : Type}
    (r : GameState E → GAction E U → GameState E) (s : GameState E)
    (pid : String) (actor : Option String) (hnone : s.players pid = none) :
    createGameReducer r s ⟨"__PLAYER_LEFT__", .pidP pid, actor⟩ = s := by
  simp [createGameReducer, hnone]

/-- `__PLAYER_LEFT__` for a known player marks it disconnected. -/
theorem createGameReducer_left_present {E U : Type}
    (r : GameState E → GAction E U → GameState E) (s : GameState E)
    (pid : String) (actor : Option String) (player : Player)
    (hsome : s.players pid = some player) :
    createGameReducer r s ⟨"__PLAYER_LEFT__", .pidP pid, actor⟩ =
      { s with players := fun q =>
          if q = pid then some { player with connected := false } else s.players q } := by
  simp [createGameReducer, hsome]

/-- `__PLAYER_RECONNECTED__` for a known player marks it connected again. -/
theorem hostGameReducer_reconnected_present {E U : Type}
    (r : GameState E → GAction E U → GameState E) (s : GameState E)
    (pid : String) (actor : Option String) (player : Player)
    (hsome : s.players pid = some player) :
    hostGameReducer r s ⟨"__PLAYER_RECONNECTED__", .pidP pid, actor⟩ =
      { s with players := fun q =>
          if q = pid then some { player with connected := true } else s.players q } := by
  simp [hostGameReducer, hsome]

/-- `__PLAYER_REMOVED__` drops the player's entry from the `players` map. -/
theorem hostGameReducer_removed {E U : Type}
    (r : GameState E → GAction E U → GameState E) (s : GameState E)
    (pid : String) (actor : Option String) :
    hostGameReducer r s ⟨"__PLAYER_REMOVED__", .pidP pid, actor⟩ =
      { s with players := fun q => if q = pid then none else s.players q } := by
  simp [hostGameReducer]

/-- `__PLAYER_JOINED__` through the host reducer defers to `createGameReducer`. -/
theorem hostGameReducer_joined {E U : Type}
    (r : GameState E → GAction E U → GameState E) (s : GameState E)
    (jid jname : String) (avatar : Option String) (actor : Option String) :
    hostGameReducer r s ⟨"__PLAYER_JOINED__", .joinP jid jname avatar, actor⟩ =
      { s with players := fun q =>
          if q = jid then some ⟨jid, jname, avatar, false, true⟩ else s.players q } := by
  rw [show hostGameReducer r s ⟨"__PLAYER_JOINED__", .joinP jid jname avatar, actor⟩ =
      createGameReducer r s ⟨"__PLAYER_JOINED__", .joinP jid jname avatar, actor⟩ by
    simp [hostGameReducer]]
  exact createGameReducer_joined r s jid jname avatar actor

/- ===================== C10: frame property of internal player actions ===================== -/

/-- C10: the reducer produced by `createGameReducer` applied to a
`__PLAYER_JOINED__` or `__PLAYER_LEFT__` action changes only the `players`
field of the state (status and the application-defined remainder are
unchanged) and only the entry for the named player id (every other player
entry is unchanged); and `__PLAYER_LEFT__` for a playerId absent from
`players` returns the input state itself. -/
theorem c10_internal_player_actions_frame {E U : Type}
    (r : GameState E → GAction E U → GameState E) (s : GameState E) :
    (∀ (jid jname : String) (avatar : Option String) (actor : Option String),
      (createGameReducer r s ⟨"__PLAYER_JOINED__", .joinP jid jname avatar, actor⟩).status
          = s.status ∧
      (createGameReducer r s ⟨"__PLAYER_JOINED__", .joinP jid jname avatar, actor⟩).ext
          = s.ext ∧
      ∀ q, q ≠ jid →
        (createGameReducer r s ⟨"__PLAYER_JOINED__", .joinP jid jname avatar, actor⟩).players q
          = s.players q) ∧
    (∀ (pid : String) (actor : Option String),
      (createGameReducer r s ⟨"__PLAYER_LEFT__", .pidP pid, actor⟩).status = s.status ∧
      (createGameReducer r s ⟨"__PLAYER_LEFT__", .pidP pid, actor⟩).ext = s.ext ∧
      ∀ q, q ≠ pid →
        (createGameReducer r s ⟨"__PLAYER_LEFT__", .pidP pid, actor⟩).players q
          = s.players q) ∧
    (∀ (pid : String) (actor : Option String),
      s.players pid = none →
      createGameReducer r s ⟨"__PLAYER_LEFT__", .pidP pid, actor⟩ = s) := by
  refine ⟨fun jid jname avatar actor => ?_, fun pid actor => ?_, fun pid actor hnone => ?_⟩
  · rw [createGameReducer_joined]
    exact ⟨rfl, rfl, fun q hq => if_neg hq⟩
  · cases hp : s.players pid with
    | none => rw [createGameReducer_left_absent r s pid actor hp]
              exact ⟨rfl, rfl, fun q _ => rfl⟩
    | some player => rw [createGameReducer_left_present r s pid actor player hp]
                     exact ⟨rfl, rfl, fun q hq => if_neg hq⟩
  · exact createGameReducer_left_absent r s pid actor hnone

/-- C10 witness: the `__PLAYER_LEFT__` hypothesis case at a concrete state with
no players. -/
theorem c10_internal_player_actions_frame_witness :
    createGameReducer (fun (s : GameState Unit) (_ : GAction Unit Unit) => s)
        ⟨"lobby", fun _ => none, ()⟩ ⟨"__PLAYER_LEFT__", .pidP "p1", none⟩
      = ⟨"lobby", fun _ => none, ()⟩ :=
  (c10_internal_player_actions_frame (fun s _ => s) ⟨"lobby", fun _ => none, ()⟩).2.2
    "p1" none rfl

/- ===================== C6: replay result ===================== -/

/-- Characterization of the replay loop: final state is the fold of the reducer
over the actions, and the snapshot at position `j` carries the state after the
first `j + 1` actions, the action itself, its timestamp, and index `i + j`. -/
theorem replayGo_spec {S A : Type} (r : S → A → S) :
    ∀ (acts : List (RecordedAction A)) (s : S) (i : Nat),
      (replayGo r s i acts).1 = acts.foldl (fun t ra => r t ra.action) s ∧
      (replayGo r s i acts).2.length = acts.length ∧
      ∀ (j : Nat) (ra : RecordedAction A), acts.get? j = some ra →
        (replayGo r s i acts).2.get? j =
          some ⟨((acts.take (j + 1)).foldl (fun t rb => r t rb.action) s),
                 ra.action, ra.timestamp, i + j⟩ := by
  intro acts
  induction acts with
  | nil =>
      intro s i
      refine ⟨rfl, rfl, fun j ra hj => ?_⟩
      simp at hj
  | cons a rest ih =>
      intro s i
      obtain ⟨ih1, ih2, ih3⟩ := ih (r s a.action) (i + 1)
      refine ⟨by simpa [replayGo] using ih1, by simpa [replayGo] using ih2,
        fun j ra hj => ?_⟩
      cases j with
      | zero =>
          simp only [List.get?_cons_zero, Option.some.injEq] at hj
          subst hj
          simp [replayGo]
      | succ j =>
          simp only [List.get?_cons_succ] at hj
          have := ih3 j ra hj
          simp only [replayGo, List.get?_cons_succ]
          rw [this]
          simp [List.take_succ_cons]
          omega

/-- C6 counterexample: a recording with an empty actions list but a set
`endTimestamp` has nonzero duration, refuting the claim that every recording
with an empty actions list yields zero duration. -/
theorem c6_replay_result_counterexample :
    (replayActions (S := Nat) (A := Unit)
        ⟨0, [], 0, some 5⟩ (fun s _ => s)).duration = 5 ∧ (5 : Int) ≠ 0 :=
  ⟨rfl, by decide⟩

/-- C6 (amended): `replayActions` returns `duration = (endTimestamp ??
timestamp of the last recorded action ?? startTimestamp) - startTimestamp`,
`actionCount` equal to the number of recorded actions, and one snapshot per
action in order with index `i` and the state after applying action `i`; for a
recording with an empty actions list the snapshots array is empty, `finalState`
is the recording's `initialState` itself, and the duration is zero when
`endTimestamp` is absent (with `endTimestamp` present it is `endTimestamp -
startTimestamp`, which the original claim overlooks). -/
theorem c6_replay_result {S A : Type} (rec : Recording S A) (r : S → A → S) :
    (replayActions rec r).duration =
      (match rec.endTimestamp with
       | some t => t
       | none =>
          match rec.actions.getLast? with
          | some ra => ra.timestamp
          | none => rec.startTimestamp) - rec.startTimestamp ∧
    (replayActions rec r).actionCount = rec.actions.length ∧
    (replayActions rec r).snapshots.length = rec.actions.length ∧
    (∀ (j : Nat) (ra : RecordedAction A), rec.actions.get? j = some ra →
      (replayActions rec r).snapshots.get? j =
        some ⟨replayStateAfter r rec.initialState rec.actions (j + 1),
              ra.action, ra.timestamp, j⟩) ∧
    (replayActions rec r).finalState =
      replayStateAfter r rec.initialState rec.actions rec.actions.length ∧
    (rec.actions = [] →
      (replayActions rec r).snapshots = [] ∧
      (replayActions rec r).finalState = rec.initialState ∧
      (rec.endTimestamp = none → (replayActions rec r).duration = 0)) := by
  obtain ⟨h1, h2, h3⟩ := replayGo_spec r rec.actions rec.initialState 0
  refine ⟨rfl, rfl, ?_, ?_, ?_, ?_⟩
  · simpa [replayActions] using h2
  · intro j ra hj
    have := h3 j ra hj
    simpa [replayActions, replayStateAfter] using this
  · simp only [replayActions, replayStateAfter, List.take_length]
    exact h1
  · intro hnil
    refine ⟨?_, ?_, ?_⟩
    · simp [replayActions, hnil, replayGo]
    · simp [replayActions, hnil, replayGo]
    · intro hend
      simp [replayActions, hnil, hend]

/-- C6 witness: the snapshot characterization applied to a concrete one-action
recording. -/
theorem c6_replay_result_witness :
    (replayActions (S := Nat) (A := Unit)
        ⟨0, [⟨(), 7⟩], 0, none⟩ (fun s _ => s + 1)).snapshots.get? 0 =
      some ⟨replayStateAfter (fun (s : Nat) (_ : Unit) => s + 1) 0 [⟨(), 7⟩] 1, (), 7, 0⟩ :=
  ((c6_replay_result ⟨0, [⟨(), 7⟩], 0, none⟩ (fun s _ => s + 1)).2.2.2.1) 0 ⟨(), 7⟩ rfl

/- ===================== C2 and C7: middleware dispatch ===================== -/

/-- Invariant of one run of the composed dispatch chain: regardless of which
middlewares throw (before or after their `next`) or observe state, the reducer
runs exactly once on the state seeded at dispatch start, the chain's return
value is the reduced state, and every `getState()` observation added to the
log saw either the seeded state (before `next`) or the reduced state (after
`next`). -/
theorem mwChain_run {S A : Type} (r : S → A → S) (a : A) :
    ∀ (mws : List MWBehavior) (st : MWState S),
      (mwChain r mws a st).1.cur = r st.cur a ∧
      (mwChain r mws a st).1.reducerCalls = st.reducerCalls + 1 ∧
      (mwChain r mws a st).2 = r st.cur a ∧
      ∀ e ∈ (mwChain r mws a st).1.observedLog,
        e ∈ st.observedLog ∨ e = (false, st.cur) ∨ e = (true, r st.cur a) := by
  intro mws
  induction mws with
  | nil =>
      intro st
      refine ⟨rfl, rfl, rfl, fun e he => Or.inl he⟩
  | cons b rest ih =>
      intro st
      have hfold : mwChain r (b :: rest) a st = mwBoundary b (mwChain r rest a) st := rfl
      cases b with
      | transparent =>
          obtain ⟨i1, i2, i3, i4⟩ := ih st
          rw [hfold]
          exact ⟨i1, i2, i3, i4⟩
      | throwBefore =>
          obtain ⟨i1, i2, i3, i4⟩ := ih st
          rw [hfold]
          exact ⟨i1, i2, i3, i4⟩
      | throwAfter =>
          obtain ⟨i1, i2, i3, i4⟩ := ih st
          rw [hfold]
          refine ⟨i1, i2, ?_, i4⟩
          simpa [mwBoundary, mwRunHandler] using i1
      | observeBefore =>
          have key := ih { st with observedLog := st.observedLog ++ [(false, st.cur)] }
          obtain ⟨i1, i2, i3, i4⟩ := key
          rw [hfold]
          refine ⟨i1, i2, i3, fun e he => ?_⟩
          rcases i4 e he with hmem | hfalse | htrue
          · rcases List.mem_append.mp hmem with h1 | h2
            · exact Or.inl h1
            · simp only [List.mem_singleton] at h2
              exact Or.inr (Or.inl h2)
          · exact Or.inr (Or.inl hfalse)
          · exact Or.inr (Or.inr htrue)
      | observeAfter =>
          obtain ⟨i1, i2, i3, i4⟩ := ih st
          rw [hfold]
          refine ⟨by simpa [mwBoundary, mwRunHandler] using i1,
            by simpa [mwBoundary, mwRunHandler] using i2,
            by simpa [mwBoundary, mwRunHandler] using i3,
            fun e he => ?_⟩
          simp only [mwBoundary, mwRunHandler, List.mem_append, List.mem_singleton] at he
          rcases he with hmem | heq
          · exact i4 e hmem
          · subst heq
            rw [i1]
            exact Or.inr (Or.inr rfl)

/-- C2: for every middleware chain (including chains where any number of
handlers throw before or after invoking `next`) and every action, the dispatch
completes and the underlying reducer is applied to the action exactly once:
the final canonical state and the value returned by the dispatch are the
once-reduced state. A layer that throws before calling `next` has the action
forwarded past it; a layer that throws after calling `next` has the
already-computed result (the current state) returned, never a second
dispatch. -/
theorem c2_middleware_throw_single_dispatch {S A : Type} (r : S → A → S)
    (mws : List MWBehavior) (s0 : S) (a : A) :
    (dispatchMW r mws s0 a).1.reducerCalls = 1 ∧
    (dispatchMW r mws s0 a).1.cur = r s0 a ∧
    (dispatchMW r mws s0 a).2 = r s0 a := by
  obtain ⟨h1, h2, h3, -⟩ := mwChain_run r a mws ⟨s0, 0, []⟩
  exact ⟨h2, h1, h3⟩

/-- C7 counterexample: a middleware that reads `api.getState()` after its
`next` has run the reducer observes the updated state `1`, not the
start-of-dispatch state `0` — `getState` does not always return the state as
of the start of the current dispatch. -/
theorem c7_getstate_counterexample :
    (dispatchMW (fun (s : Nat) (_ : Unit) => s + 1)
        [MWBehavior.observeAfter] 0 ()).1.observedLog = [(true, 1)] ∧
    (1 : Nat) ≠ 0 := by
  constructor
  · rfl
  · decide

/-- C7 (amended): `api.getState()` returns the latest canonical state of the
current dispatch — every observation made before the observing layer's `next`
ran sees the state as of the start of the dispatch, and every observation made
after `next` has run the reducer sees the once-reduced state (the original
claim asserts the start-of-dispatch state in both situations). -/
theorem c7_getstate_latest {S A : Type} (r : S → A → S)
    (mws : List MWBehavior) (s0 : S) (a : A) :
    ∀ e ∈ (dispatchMW r mws s0 a).1.observedLog,
      e.2 = if e.1 then r s0 a else s0 := by
  intro e he
  obtain ⟨-, -, -, h4⟩ := mwChain_run r a mws ⟨s0, 0, []⟩
  rcases h4 e he with hmem | hfalse | htrue
  · simp at hmem
  · subst hfalse; rfl
  · subst htrue; rfl

/-- C7 witness: the amended claim evaluated on a concrete chain observing
before `next`. -/
theorem c7_getstate_latest_witness :
    ((false, (0 : Nat)) ∈ (dispatchMW (fun (s : Nat) (_ : Unit) => s + 1)
        [MWBehavior.observeBefore] 0 ()).1.observedLog) ∧
    ((false, (0 : Nat)).2 = if (false, (0 : Nat)).1
        then (fun (s : Nat) (_ : Unit) => s + 1) 0 () else 0) := by
  constructor
  · show (false, 0) ∈ [(false, 0)]
    exact List.mem_singleton.mpr rfl
  · exact c7_getstate_latest (fun s _ => s + 1) [MWBehavior.observeBefore] 0 ()
      (false, 0) (by show (false, 0) ∈ [(false, 0)]; exact List.mem_singleton.mpr rfl)

/- ===================== Sample fixtures for concrete witnesses ===================== -/

/-- A concrete empty game state used by witnesses. -/
def sampleGame : GameState Unit := ⟨"lobby", fun _ => none, ()⟩

/-- A concrete identity user reducer used by witnesses. -/
def sampleReducer : GameState Unit → GAction Unit Unit → GameState Unit := fun s _ => s

/-- A concrete host state with empty bookkeeping used by witnesses. -/
def sampleHost : HostState Unit Unit where
  game := sampleGame
  sessions := fun _ => none
  reverseMap := fun _ => none
  socketIdToPlayerId := fun _ => none
  cleanupTimers := fun _ => none
  rateLimits := fun _ => none
  actionQueue := []
  assetsLoaded := fun _ => none
  welcomedClients := fun _ => false
  pendingWelcome := fun _ => none

/- ===================== C9: broadcast flush tagging ===================== -/

/-- C9: every flush of the broadcast scheduler sends a `STATE_UPDATE` carrying
the latest canonical state; its `action` tag is omitted when zero actions were
dispatched since the previous flush, is the single action when exactly one
was, and is the array of actions when more than one was (the three tag shapes
are mutually exclusive constructors, so the payload never carries both a
singular and an array form); and the flush empties the pending-action queue. -/
theorem c9_broadcast_flush_tagging {E U : Type} (h : HostState E U) (now : Int) :
    (broadcastFlush h now).1.actionQueue = [] ∧
    (h.actionQueue = [] →
      (broadcastFlush h now).2 = .stateUpdate h.game now .noTag) ∧
    (∀ a, h.actionQueue = [a] →
      (broadcastFlush h now).2 = .stateUpdate h.game now (.oneTag a)) ∧
    (∀ a b rest, h.actionQueue = a :: b :: rest →
      (broadcastFlush h now).2 = .stateUpdate h.game now (.manyTag (a :: b :: rest))) := by
  refine ⟨rfl, fun hq => ?_, fun a hq => ?_, fun a b rest hq => ?_⟩
  · simp [broadcastFlush, hq]
  · simp [broadcastFlush, hq]
  · simp [broadcastFlush, hq]

/-- C9 witness: the empty-queue case on a concrete host state. -/
theorem c9_broadcast_flush_tagging_witness :
    (broadcastFlush sampleHost 42).2 = .stateUpdate sampleHost.game 42 .noTag :=
  (c9_broadcast_flush_tagging sampleHost 42).2.1 rfl

/- ===================== C5: legacy identity fallback ===================== -/

/-- C5: for every join with a valid secret, the player id cached for the
joining socket is the current-scheme derivation of the secret, except when the
canonical state has no player under the current-scheme id but does have one
under the legacy derivation, in which case the legacy id is used. Derivation
is deterministic in the secret because `cur` and `leg` are pure functions of
it. -/
theorem c5_legacy_identity_fallback {E U : Type} (cur leg : String → String)
    (r : GameState E → GAction E U → GameState E) (h : HostState E U)
    (socketId secret pname : String) (avatar : Option String)
    (hval : isValidSecret secret = true) :
    ((h.game.players (cur secret)) = none ∧ (h.game.players (leg secret)).isSome →
      ((processJoinMsg cur leg r h socketId secret pname avatar).1).socketIdToPlayerId
        socketId = some (leg secret)) ∧
    (¬((h.game.players (cur secret)) = none ∧ (h.game.players (leg secret)).isSome) →
      ((processJoinMsg cur leg r h socketId secret pname avatar).1).socketIdToPlayerId
        socketId = some (cur secret)) := by
  have hcache : ((processJoinMsg cur leg r h socketId secret pname avatar).1).socketIdToPlayerId
      socketId = some (resolveJoinId cur leg h.game secret) := by
    simp only [processJoinMsg, hval, if_true, processJoin]
    split <;> simp
  constructor
  · intro hcond
    rw [hcache]
    simp only [resolveJoinId]
    rw [if_pos]
    exact ⟨Option.isNone_iff_eq_none.mpr hcond.1, hcond.2⟩
  · intro hcond
    rw [hcache]
    simp only [resolveJoinId]
    rw [if_neg]
    intro hc
    exact hcond ⟨Option.isNone_iff_eq_none.mp hc.1, hc.2⟩

/-- C5 witness: a join on an empty state (no legacy fallback applies) resolves
to the current-scheme id. -/
theorem c5_legacy_identity_fallback_witness :
    ((processJoinMsg (fun s => "v2-" ++ s) (fun s => "v1-" ++ s) sampleReducer
        sampleHost "sock1" "secret1" "Alice" none).1).socketIdToPlayerId "sock1"
      = some "v2-secret1" :=
  (c5_legacy_identity_fallback (fun s => "v2-" ++ s) (fun s => "v1-" ++ s)
      sampleReducer sampleHost "sock1" "secret1" "Alice" none rfl).2
    (by simp [sampleHost, sampleGame])

/- ===================== C3 and C4: disconnect grace and race guard ===================== -/

/-- After a join, the secret's registered connection is the joining socket. -/
theorem processJoin_sessions {E U : Type} (cur leg : String → String)
    (r : GameState E → GAction E U → GameState E) (h : HostState E U)
    (socketId secret pname : String) (avatar : Option String) :
    (processJoin cur leg r h socketId secret pname avatar).sessions =
      fun s => if s = secret then some socketId else h.sessions s := by
  simp only [processJoin]
  split <;> rfl

/-- After a join, the reverse map binds the joining socket to the secret and
leaves other sockets untouched. -/
theorem processJoin_reverseMap {E U : Type} (cur leg : String → String)
    (r : GameState E → GAction E U → GameState E) (h : HostState E U)
    (socketId secret pname : String) (avatar : Option String) :
    (processJoin cur leg r h socketId secret pname avatar).reverseMap =
      fun s => if s = socketId then some secret else h.reverseMap s := by
  simp only [processJoin]
  split <;> rfl

/-- After a join, any pending cleanup timer for the resolved player is gone. -/
theorem processJoin_cleanupTimers {E U : Type} (cur leg : String → String)
    (r : GameState E → GAction E U → GameState E) (h : HostState E U)
    (socketId secret pname : String) (avatar : Option String) :
    (processJoin cur leg r h socketId secret pname avatar).cleanupTimers =
      fun p => if p = resolveJoinId cur leg h.game secret then none
               else h.cleanupTimers p := by
  simp only [processJoin]
  split <;> rfl

/-- After a join, the resolved player is present and marked connected: a
returning player is restored by `__PLAYER_RECONNECTED__`, a new one is created
connected by `__PLAYER_JOINED__`. -/
theorem processJoin_connected {E U : Type} (cur leg : String → String)
    (r : GameState E → GAction E U → GameState E) (h : HostState E U)
    (socketId secret pname : String) (avatar : Option String) :
    Option.map Player.connected
      ((processJoin cur leg r h socketId secret pname avatar).game.players
        (resolveJoinId cur leg h.game secret)) = some true := by
  simp only [processJoin]
  by_cases hex : (h.game.players (resolveJoinId cur leg h.game secret)).isSome
  · rw [if_pos hex]
    obtain ⟨pl, hpl⟩ := Option.isSome_iff_exists.mp hex
    have := hostGameReducer_reconnected_present (U := U) r
      { h.game with players := h.game.players } (resolveJoinId cur leg h.game secret)
      none pl (by simpa using hpl)
    simp only [] at this ⊢
    rw [show ({ h.game with players := h.game.players } : GameState E) = h.game from rfl] at this
    rw [this]
    simp
  · rw [if_neg hex]
    rw [hostGameReducer_joined]
    simp

/-- A disconnect whose socket is no longer the registered connection for its
secret (or whose socket has no cached identity) leaves the game state and the
cleanup timers untouched: the player-left path is skipped. -/
theorem onDisconnect_skip {E U : Type} (r : GameState E → GAction E U → GameState E)
    (h : HostState E U) (socketId : String)
    (hguard : ∀ secret, h.reverseMap socketId = some secret →
      h.sessions secret ≠ some socketId) :
    (onDisconnect r h socketId).game = h.game ∧
    (onDisconnect r h socketId).cleanupTimers = h.cleanupTimers := by
  unfold onDisconnect
  cases hpid : h.socketIdToPlayerId socketId with
  | none => exact ⟨rfl, rfl⟩
  | some playerId =>
      cases hsec : h.reverseMap socketId with
      | none => exact ⟨rfl, rfl⟩
      | some secret =>
          dsimp only
          rw [if_neg (hguard secret hsec)]
          exact ⟨rfl, rfl⟩

/-- C3: a pending disconnect-grace timer that fires dispatches the
permanent-removal action, whose effect on canonical state is that the player's
key is removed from `players` while every other player entry is untouched; a
player who rejoins before the timer fires has the pending timer cancelled, so
its later expiry is a no-op and the player is never removed. -/
theorem c3_disconnect_grace_removal {E U : Type}
    (r : GameState E → GAction E U → GameState E) :
    (∀ (h : HostState E U) (p secret : String), h.cleanupTimers p = some secret →
      (onTimerFire r h p).game.players p = none ∧
      (∀ q, q ≠ p → (onTimerFire r h p).game.players q = h.game.players q)) ∧
    (∀ (cur leg : String → String) (h : HostState E U)
        (sock secret pname : String) (avatar : Option String),
      isValidSecret secret = true →
      ((processJoinMsg cur leg r h sock secret pname avatar).1).cleanupTimers
          (resolveJoinId cur leg h.game secret) = none ∧
      onTimerFire r ((processJoinMsg cur leg r h sock secret pname avatar).1)
          (resolveJoinId cur leg h.game secret)
        = (processJoinMsg cur leg r h sock secret pname avatar).1) := by
  constructor
  · intro h p secret htimer
    have hfire : onTimerFire r h p =
        { h with
          cleanupTimers := fun q => if q = p then none else h.cleanupTimers q
          sessions := fun s => if s = secret then none else h.sessions s
          game := hostGameReducer r h.game ⟨"__PLAYER_REMOVED__", .pidP p, none⟩ } := by
      simp [onTimerFire, htimer]
    rw [hfire, hostGameReducer_removed]
    exact ⟨by simp, fun q hq => if_neg hq⟩
  · intro cur leg h sock secret pname avatar hval
    have hmsg : (processJoinMsg cur leg r h sock secret pname avatar).1 =
        processJoin cur leg r h sock secret pname avatar := by
      simp [processJoinMsg, hval]
    have hct : (processJoin cur leg r h sock secret pname avatar).cleanupTimers
        (resolveJoinId cur leg h.game secret) = none := by
      rw [processJoin_cleanupTimers]
      simp
    rw [hmsg]
    exact ⟨hct, by simp [onTimerFire, hct]⟩

/-- C3 witness: the rejoin-cancels-removal conjunct on a concrete state and
secret. -/
theorem c3_disconnect_grace_removal_witness :
    onTimerFire sampleReducer
        ((processJoinMsg (fun s => "v2-" ++ s) (fun s => "v1-" ++ s) sampleReducer
            sampleHost "sock1" "secret1" "Alice" none).1)
        (resolveJoinId (fun s => "v2-" ++ s) (fun s => "v1-" ++ s)
            sampleHost.game "secret1")
      = (processJoinMsg (fun s => "v2-" ++ s) (fun s => "v1-" ++ s) sampleReducer
          sampleHost "sock1" "secret1" "Alice" none).1 :=
  ((c3_disconnect_grace_removal sampleReducer).2 (fun s => "v2-" ++ s)
    (fun s => "v1-" ++ s) sampleHost "sock1" "secret1" "Alice" none rfl).2

/-- C4: if a second connection joins with a secret and then the older
connection (still registered in the reverse map for that secret) closes, the
disconnect handler dispatches no player-left action — the game state and the
cleanup timers are unchanged — and the player stays marked connected, because
the race guard sees that the closing socket is no longer the registered
connection for the secret. -/
theorem c4_reconnection_race_guard {E U : Type} (cur leg : String → String)
    (r : GameState E → GAction E U → GameState E) (h : HostState E U)
    (oldSock newSock secret pname : String) (avatar : Option String)
    (hval : isValidSecret secret = true)
    (hrev : h.reverseMap oldSock = some secret)
    (hne : oldSock ≠ newSock) :
    (onDisconnect r ((processJoinMsg cur leg r h newSock secret pname avatar).1)
        oldSock).game
      = ((processJoinMsg cur leg r h newSock secret pname avatar).1).game ∧
    (onDisconnect r ((processJoinMsg cur leg r h newSock secret pname avatar).1)
        oldSock).cleanupTimers
      = ((processJoinMsg cur leg r h newSock secret pname avatar).1).cleanupTimers ∧
    Option.map Player.connected
      ((onDisconnect r ((processJoinMsg cur leg r h newSock secret pname avatar).1)
          oldSock).game.players (resolveJoinId cur leg h.game secret))
      = some true := by
  have hmsg : (processJoinMsg cur leg r h newSock secret pname avatar).1 =
      processJoin cur leg r h newSock secret pname avatar := by
    simp [processJoinMsg, hval]
  rw [hmsg]
  have hguard : ∀ s2, (processJoin cur leg r h newSock secret pname avatar).reverseMap
      oldSock = some s2 →
      (processJoin cur leg r h newSock secret pname avatar).sessions s2 ≠ some oldSock := by
    intro s2 hs2
    rw [processJoin_reverseMap] at hs2
    simp only [if_neg hne, hrev, Option.some.injEq] at hs2
    subst hs2
    rw [processJoin_sessions]
    simp only [if_pos rfl]
    intro hcontra
    exact hne (by simpa using hcontra.symm)
  obtain ⟨hgame, htimers⟩ :=
    onDisconnect_skip r (processJoin cur leg r h newSock secret pname avatar)
      oldSock hguard
  refine ⟨hgame, htimers, ?_⟩
  rw [hgame]
  exact processJoin_connected cur leg r h newSock secret pname avatar

/-- C4 witness: the race guard on a concrete state where the old socket is
still bound to the secret when the new connection has taken over. -/
theorem c4_reconnection_race_guard_witness :
    Option.map Player.connected
      ((onDisconnect sampleReducer
          ((processJoinMsg (fun s => "v2-" ++ s) (fun s => "v1-" ++ s) sampleReducer
              { sampleHost with reverseMap := fun s => if s = "oldSock" then some "secret1" else none }
              "newSock" "secret1" "Alice" none).1) "oldSock").game.players
        (resolveJoinId (fun s => "v2-" ++ s) (fun s => "v1-" ++ s)
          { sampleHost with reverseMap := fun s => if s = "oldSock" then some "secret1" else none }.game
          "secret1"))
      = some true :=
  (c4_reconnection_race_guard (fun s => "v2-" ++ s) (fun s => "v1-" ++ s) sampleReducer
      { sampleHost with reverseMap := fun s => if s = "oldSock" then some "secret1" else none }
      "oldSock" "newSock" "secret1" "Alice" none rfl (by simp) (by decide)).2.2

/- ===================== C8: rate limiting ===================== -/

/-- An in-window, non-internal action below the limit is dispatched: the count
is bumped, the reducer runs with the cached player id attached, the action is
queued for broadcast, and no message is sent. -/
theorem processActionMsg_dispatch {E U : Type}
    (r : GameState E → GAction E U → GameState E) (h : HostState E U)
    (sock : String) (a : GAction E U) (t : Int) (c : Nat) (w : Int)
    (hint : a.typ ∉ internalTypeStrings)
    (hri : h.rateLimits sock = some ⟨c, w⟩)
    (hwin : t - w ≤ RATE_LIMIT_WINDOW)
    (hcnt : c + 1 ≤ RATE_LIMIT_MAX) :
    processActionMsg r h sock a t =
      ({ h with
          rateLimits := fun s => if s = sock then some ⟨c + 1, w⟩ else h.rateLimits s
          game := hostGameReducer r h.game { a with actorId := h.socketIdToPlayerId sock }
          actionQueue := h.actionQueue ++ [a] }, []) := by
  simp only [processActionMsg, if_neg hint, hri]
  rw [if_neg (not_lt.mpr hwin)]
  simp only [gt_iff_lt]
  rw [if_neg (not_lt.mpr hcnt)]

/-- The first in-window action of a fresh session opens a window at its own
timestamp and is dispatched. -/
theorem processActionMsg_fresh {E U : Type}
    (r : GameState E → GAction E U → GameState E) (h : HostState E U)
    (sock : String) (a : GAction E U) (t : Int)
    (hint : a.typ ∉ internalTypeStrings)
    (hri : h.rateLimits sock = none) :
    processActionMsg r h sock a t =
      ({ h with
          rateLimits := fun s => if s = sock then some ⟨1, t⟩ else h.rateLimits s
          game := hostGameReducer r h.game { a with actorId := h.socketIdToPlayerId sock }
          actionQueue := h.actionQueue ++ [a] }, []) := by
  simp only [processActionMsg, if_neg hint, hri]
  rw [if_neg (by simp [RATE_LIMIT_MAX])]

/-- An in-window action beyond the limit is rejected: the count is still
bumped, exactly one `RATE_LIMITED` error is sent, and neither the game state
nor the action queue changes. -/
theorem processActionMsg_limited {E U : Type}
    (r : GameState E → GAction E U → GameState E) (h : HostState E U)
    (sock : String) (a : GAction E U) (t : Int) (c : Nat) (w : Int)
    (hint : a.typ ∉ internalTypeStrings)
    (hri : h.rateLimits sock = some ⟨c, w⟩)
    (hwin : t - w ≤ RATE_LIMIT_WINDOW)
    (hcnt : c + 1 > RATE_LIMIT_MAX) :
    processActionMsg r h sock a t =
      ({ h with
          rateLimits := fun s => if s = sock then some ⟨c + 1, w⟩ else h.rateLimits s },
        [.errorMsg sock "RATE_LIMITED" "Too many actions, slow down"]) := by
  simp only [processActionMsg, if_neg hint, hri]
  rw [if_neg (not_lt.mpr hwin)]
  simp only [gt_iff_lt]
  rw [if_pos hcnt]

/-- Invariant of a streak of in-window, non-internal actions that stays within
the limit: every action is dispatched in order, no message is emitted, and the
window keeps its original start. -/
theorem runActionMsgs_window {E U : Type}
    (r : GameState E → GAction E U → GameState E) (sock : String) :
    ∀ (msgs : List (GAction E U × Int)) (h : HostState E U) (c : Nat) (w : Int),
      h.rateLimits sock = some ⟨c, w⟩ →
      (∀ m ∈ msgs, m.1.typ ∉ internalTypeStrings) →
      (∀ m ∈ msgs, m.2 - w ≤ RATE_LIMIT_WINDOW) →
      c + msgs.length ≤ RATE_LIMIT_MAX →
      (runActionMsgs r sock h msgs).2 = [] ∧
      (runActionMsgs r sock h msgs).1.rateLimits sock = some ⟨c + msgs.length, w⟩ ∧
      (runActionMsgs r sock h msgs).1.game =
        msgs.foldl (fun g m => hostGameReducer r g
          { m.1 with actorId := h.socketIdToPlayerId sock }) h.game ∧
      (runActionMsgs r sock h msgs).1.actionQueue =
        h.actionQueue ++ msgs.map Prod.fst ∧
      (runActionMsgs r sock h msgs).1.socketIdToPlayerId = h.socketIdToPlayerId := by
  intro msgs
  induction msgs with
  | nil =>
      intro h c w hri _ _ _
      exact ⟨rfl, by simpa [runActionMsgs] using hri, rfl, by simp [runActionMsgs], rfl⟩
  | cons m rest ih =>
      intro h c w hri hint hwin hcnt
      have hstep := processActionMsg_dispatch r h sock m.1 m.2 c w
        (hint m (List.mem_cons_self m rest)) hri
        (hwin m (List.mem_cons_self m rest)) (by simp at hcnt; omega)
      have hrun : runActionMsgs r sock h (m :: rest) =
          ((runActionMsgs r sock (processActionMsg r h sock m.1 m.2).1 rest).1,
            (processActionMsg r h sock m.1 m.2).2 ++
              (runActionMsgs r sock (processActionMsg r h sock m.1 m.2).1 rest).2) := rfl
      rw [hrun, hstep]
      set h2 : HostState E U := { h with
        rateLimits := fun s => if s = sock then some ⟨c + 1, w⟩ else h.rateLimits s
        game := hostGameReducer r h.game { m.1 with actorId := h.socketIdToPlayerId sock }
        actionQueue := h.actionQueue ++ [m.1] } with hh2
      have hri2 : h2.rateLimits sock = some ⟨c + 1, w⟩ := by simp [hh2]
      obtain ⟨i1, i2, i3, i4, i5⟩ := ih h2 (c + 1) w hri2
        (fun x hx => hint x (List.mem_cons_of_mem m hx))
        (fun x hx => hwin x (List.mem_cons_of_mem m hx))
        (by simp at hcnt ⊢; omega)
      refine ⟨by simpa using i1, ?_, ?_, ?_, ?_⟩
      · have harith : c + 1 + rest.length = c + (rest.length + 1) := by omega
        rw [i2, List.length_cons, harith]
      · rw [i3]
        try simp only [List.foldl_cons]
      · rw [i4]
        try simp [hh2, List.append_assoc]
      · rw [i5]
        try rfl

/-- Running a split list of action messages is running the two halves in
sequence, concatenating the emitted messages. -/
theorem runActionMsgs_append {E U : Type}
    (r : GameState E → GAction E U → GameState E) (sock : String) :
    ∀ (l1 l2 : List (GAction E U × Int)) (h : HostState E U),
      runActionMsgs r sock h (l1 ++ l2) =
        ((runActionMsgs r sock (runActionMsgs r sock h l1).1 l2).1,
          (runActionMsgs r sock h l1).2 ++
            (runActionMsgs r sock (runActionMsgs r sock h l1).1 l2).2) := by
  intro l1
  induction l1 with
  | nil => intro l2 h; simp [runActionMsgs]
  | cons m rest ih =>
      intro l2 h
      have h1 : runActionMsgs r sock h ((m :: rest) ++ l2) =
          ((runActionMsgs r sock (processActionMsg r h sock m.1 m.2).1 (rest ++ l2)).1,
            (processActionMsg r h sock m.1 m.2).2 ++
              (runActionMsgs r sock (processActionMsg r h sock m.1 m.2).1 (rest ++ l2)).2) := rfl
      rw [h1, ih l2 (processActionMsg r h sock m.1 m.2).1]
      simp only [runActionMsgs, List.append_assoc]

/-- C8: a session that submits 61 non-internal `ACTION` messages within a
single rate-limit window (modelled as a first message opening the window plus
59 more and a 61st, all within `RATE_LIMIT_WINDOW` of the first) has the first
60 dispatched to the pipeline in order and the 61st rejected with exactly one
`RATE_LIMITED` error, with no state change and no queued action for the
rejected message; and an action arriving after the window elapsed resets the
count to 1 with a fresh `windowStart`. -/
theorem c8_rate_limiting {E U : Type}
    (r : GameState E → GAction E U → GameState E) :
    (∀ (h : HostState E U) (sock : String) (m1 : GAction E U × Int)
        (mid : List (GAction E U × Int)) (mlast : GAction E U × Int),
      h.rateLimits sock = none →
      mid.length = 59 →
      m1.1.typ ∉ internalTypeStrings →
      (∀ m ∈ mid, m.1.typ ∉ internalTypeStrings) →
      mlast.1.typ ∉ internalTypeStrings →
      (∀ m ∈ mid, m.2 - m1.2 ≤ RATE_LIMIT_WINDOW) →
      mlast.2 - m1.2 ≤ RATE_LIMIT_WINDOW →
      (runActionMsgs r sock h (m1 :: (mid ++ [mlast]))).2
        = [.errorMsg sock "RATE_LIMITED" "Too many actions, slow down"] ∧
      (runActionMsgs r sock h (m1 :: (mid ++ [mlast]))).1.game
        = (m1 :: mid).foldl (fun g m => hostGameReducer r g
            { m.1 with actorId := h.socketIdToPlayerId sock }) h.game ∧
      (runActionMsgs r sock h (m1 :: (mid ++ [mlast]))).1.actionQueue
        = h.actionQueue ++ (m1 :: mid).map Prod.fst) ∧
    (∀ (h : HostState E U) (sock : String) (a : GAction E U) (t : Int)
        (ri : RateInfo),
      a.typ ∉ internalTypeStrings →
      h.rateLimits sock = some ri →
      t - ri.windowStart > RATE_LIMIT_WINDOW →
      (processActionMsg r h sock a t).1.rateLimits sock = some ⟨1, t⟩ ∧
      (processActionMsg r h sock a t).2 = []) := by
  constructor
  · intro h sock m1 mid mlast hri hlen hint1 hintmid hintlast hwinmid hwinlast
    have hstep1 := processActionMsg_fresh r h sock m1.1 m1.2 hint1 hri
    have hrun1 : runActionMsgs r sock h (m1 :: (mid ++ [mlast])) =
        ((runActionMsgs r sock (processActionMsg r h sock m1.1 m1.2).1
            (mid ++ [mlast])).1,
          (processActionMsg r h sock m1.1 m1.2).2 ++
            (runActionMsgs r sock (processActionMsg r h sock m1.1 m1.2).1
              (mid ++ [mlast])).2) := rfl
    rw [hrun1, hstep1]
    set h2 : HostState E U := { h with
      rateLimits := fun s => if s = sock then some ⟨1, m1.2⟩ else h.rateLimits s
      game := hostGameReducer r h.game { m1.1 with actorId := h.socketIdToPlayerId sock }
      actionQueue := h.actionQueue ++ [m1.1] } with hh2
    rw [runActionMsgs_append r sock mid [mlast] h2]
    obtain ⟨i1, i2, i3, i4, i5⟩ := runActionMsgs_window r sock mid h2 1 m1.2
      (by simp [hh2]) hintmid hwinmid (by rw [hlen]; norm_num [RATE_LIMIT_MAX])
    set h3 : HostState E U := (runActionMsgs r sock h2 mid).1 with hh3
    have hstep61 := processActionMsg_limited r h3 sock mlast.1 mlast.2 60 m1.2
      hintlast (by rw [i2, hlen]) hwinlast (by norm_num [RATE_LIMIT_MAX])
    have hrun61 : runActionMsgs r sock h3 [mlast] =
        ((processActionMsg r h3 sock mlast.1 mlast.2).1,
          (processActionMsg r h3 sock mlast.1 mlast.2).2 ++ []) := rfl
    rw [hrun61, hstep61]
    refine ⟨by simp [i1], ?_, ?_⟩
    · show h3.game = _
      rw [i3]
      try simp only [List.foldl_cons]
      try rfl
    · show h3.actionQueue = _
      rw [i4]
      try simp [hh2, List.append_assoc]
      try rfl
  · intro h sock a t ri hint hri hgap
    have : processActionMsg r h sock a t =
        ({ h with
            rateLimits := fun s => if s = sock then some ⟨1, t⟩ else h.rateLimits s
            game := hostGameReducer r h.game { a with actorId := h.socketIdToPlayerId sock }
            actionQueue := h.actionQueue ++ [a] }, []) := by
      simp only [processActionMsg, if_neg hint, hri, gt_iff_lt]
      rw [if_pos hgap]
      rw [if_neg (by norm_num [RATE_LIMIT_MAX])]
    rw [this]
    exact ⟨by simp, rfl⟩

/-- C8 witness: 61 identical harmless actions at time zero from a fresh
session produce exactly the single `RATE_LIMITED` error. -/
theorem c8_rate_limiting_witness :
    (runActionMsgs sampleReducer "s1" sampleHost
        ((⟨"TAP", APayload.emptyP, none⟩, (0 : Int)) ::
          (List.replicate 59 (⟨"TAP", APayload.emptyP, none⟩, (0 : Int)) ++
            [(⟨"TAP", APayload.emptyP, none⟩, (0 : Int))]))).2
      = [.errorMsg "s1" "RATE_LIMITED" "Too many actions, slow down"] :=
  ((c8_rate_limiting sampleReducer).1 sampleHost "s1"
    (⟨"TAP", APayload.emptyP, none⟩, (0 : Int))
    (List.replicate 59 (⟨"TAP", APayload.emptyP, none⟩, (0 : Int)))
    (⟨"TAP", APayload.emptyP, none⟩, (0 : Int))
    rfl (by simp) (by simp [internalTypeStrings])
    (fun m hm => by rw [List.eq_of_mem_replicate hm]; simp [internalTypeStrings])
    (by simp [internalTypeStrings])
    (fun m hm => by rw [List.eq_of_mem_replicate hm]; simp [RATE_LIMIT_WINDOW])
    (by simp [RATE_LIMIT_WINDOW])).1

/- ===================== C1: frame-codec split-invariance ===================== -/

/-- Reads inside the original buffer are unchanged by appending bytes. -/
theorem byteAt_append (b e : List Nat) (i : Nat) (h : i < b.length) :
    byteAt (b ++ e) i = byteAt b i :=
  List.getD_append b e 0 i h

/-- A successful header plan is stable under appending more bytes. -/
theorem wsHeaderPlan_mono {b : List Nat} (e : List Nat) {len hdr : Nat}
    (hb : 2 ≤ b.length) (h : wsHeaderPlan b = .ok (some (len, hdr))) :
    wsHeaderPlan (b ++ e) = .ok (some (len, hdr)) := by
  unfold wsHeaderPlan at h ⊢
  dsimp only at h ⊢
  rw [byteAt_append b e 1 (by omega)]
  by_cases h126 : byteAt b 1 &&& 0x7f = 126
  · rw [if_pos h126] at h ⊢
    split at h
    · simp at h
    · rename_i hlen4
      rw [if_neg (show ¬ (b ++ e).length < 4 by simp only [List.length_append]; omega)]
      rw [byteAt_append b e 2 (by omega), byteAt_append b e 3 (by omega)]
      exact h
  · rw [if_neg h126] at h ⊢
    by_cases h127 : byteAt b 1 &&& 0x7f = 127
    · rw [if_pos h127] at h ⊢
      split at h
      · simp at h
      · rename_i hlen10
        rw [if_neg (show ¬ (b ++ e).length < 10 by simp only [List.length_append]; omega)]
        rw [byteAt_append b e 2 (by omega), byteAt_append b e 3 (by omega),
            byteAt_append b e 4 (by omega), byteAt_append b e 5 (by omega),
            byteAt_append b e 6 (by omega), byteAt_append b e 7 (by omega),
            byteAt_append b e 8 (by omega), byteAt_append b e 9 (by omega)]
        split at h
        · simp at h
        · rename_i hhigh
          rw [if_neg hhigh]
          exact h
    · rw [if_neg h127] at h ⊢
      exact h

/-- A header-plan error ("Frame payload too large") is stable under appending
more bytes. -/
theorem wsHeaderPlan_err_mono {b : List Nat} (e : List Nat)
    (hb : 2 ≤ b.length) (h : wsHeaderPlan b = .error ()) :
    wsHeaderPlan (b ++ e) = .error () := by
  unfold wsHeaderPlan at h ⊢
  dsimp only at h ⊢
  rw [byteAt_append b e 1 (by omega)]
  by_cases h126 : byteAt b 1 &&& 0x7f = 126
  · rw [if_pos h126] at h ⊢
    split at h <;> simp at h
  · rw [if_neg h126] at h ⊢
    by_cases h127 : byteAt b 1 &&& 0x7f = 127
    · rw [if_pos h127] at h ⊢
      split at h
      · simp at h
      · rename_i hlen10
        rw [if_neg (show ¬ (b ++ e).length < 10 by simp only [List.length_append]; omega)]
        rw [byteAt_append b e 2 (by omega), byteAt_append b e 3 (by omega),
            byteAt_append b e 4 (by omega), byteAt_append b e 5 (by omega)]
        split at h
        · rename_i hhigh
          rw [if_pos hhigh]
        · simp at h
    · rw [if_neg h127] at h ⊢
      simp at h

/-- A successful decode is stable under appending more bytes: the same frame
and consumed count come back. -/
theorem decodeFrame_mono {b : List Nat} (e : List Nat) {f : WsFrame} {n : Nat}
    (h : decodeFrame b = .ok (some (f, n))) :
    decodeFrame (b ++ e) = .ok (some (f, n)) := by
  have hlen2 : ¬ b.length < 2 := by
    intro hc
    rw [decodeFrame, if_pos hc] at h
    simp at h
  rw [decodeFrame, if_neg hlen2] at h
  rw [decodeFrame,
    if_neg (show ¬ (b ++ e).length < 2 by simp only [List.length_append]; omega)]
  cases hp : wsHeaderPlan b with
  | error u => rw [hp] at h; simp at h
  | ok o =>
    cases o with
    | none => rw [hp] at h; simp at h
    | some p =>
      obtain ⟨len, hdr⟩ := p
      rw [hp] at h
      rw [wsHeaderPlan_mono e (by omega) hp]
      dsimp only at h ⊢
      rw [byteAt_append b e 0 (by omega), byteAt_append b e 1 (by omega)]
      by_cases hm : byteAt b 1 &&& 0x80 ≠ 0
      · rw [if_pos hm, if_pos hm] at h
        rw [if_pos hm, if_pos hm]
        split at h
        · simp at h
        · rename_i htot
          rw [if_neg (show ¬ (b ++ e).length < hdr + 4 + len by
            simp only [List.length_append]; omega)]
          rw [List.drop_append_of_le_length (show hdr ≤ b.length by omega),
              List.drop_append_of_le_length (show hdr + 4 ≤ b.length by omega)]
          rw [List.take_append_of_le_length
                (show 4 ≤ (b.drop hdr).length by simp only [List.length_drop]; omega),
              List.take_append_of_le_length
                (show len ≤ (b.drop (hdr + 4)).length by simp only [List.length_drop]; omega)]
          exact h
      · rw [if_neg hm, if_neg hm] at h
        rw [if_neg hm, if_neg hm]
        split at h
        · simp at h
        · rename_i htot
          rw [if_neg (show ¬ (b ++ e).length < hdr + 0 + len by
            simp only [List.length_append]; omega)]
          rw [List.drop_append_of_le_length (show hdr ≤ b.length by omega)]
          rw [List.take_append_of_le_length
                (show len ≤ (b.drop hdr).length by simp only [List.length_drop]; omega)]
          exact h

/-- A decode error is stable under appending more bytes. -/
theorem decodeFrame_err_mono {b : List Nat} (e : List Nat)
    (h : decodeFrame b = .error ()) : decodeFrame (b ++ e) = .error () := by
  have hlen2 : ¬ b.length < 2 := by
    intro hc
    rw [decodeFrame, if_pos hc] at h
    simp at h
  rw [decodeFrame, if_neg hlen2] at h
  rw [decodeFrame,
    if_neg (show ¬ (b ++ e).length < 2 by simp only [List.length_append]; omega)]
  cases hp : wsHeaderPlan b with
  | error u =>
      cases u
      rw [wsHeaderPlan_err_mono e (by omega) hp]
  | ok o =>
    cases o with
    | none => rw [hp] at h; simp at h
    | some p =>
      obtain ⟨len, hdr⟩ := p
      rw [hp] at h
      dsimp only at h
      exfalso
      by_cases hm : byteAt b 1 &&& 0x80 ≠ 0
      · rw [if_pos hm, if_pos hm] at h
        split at h <;> simp at h
      · rw [if_neg hm, if_neg hm] at h
        split at h <;> simp at h

/-- The frame loop on an empty buffer does nothing. -/
theorem codecRun_zero (buf : List Nat) (hb : buf.length = 0) :
    codecRun buf = ⟨[], buf, false, false⟩ := by
  rw [codecRun.eq_def, if_pos hb]

/-- The frame loop stops with an error when the decoder throws. -/
theorem codecRun_err (buf : List Nat) (hb : buf.length ≠ 0)
    (hd : decodeFrame buf = .error ()) : codecRun buf = ⟨[], buf, false, true⟩ := by
  rw [codecRun.eq_def, if_neg hb]
  split
  · rfl
  · rename_i heq
    rw [hd] at heq
    simp at heq
  · rename_i f n heq
    rw [hd] at heq
    simp at heq

/-- The frame loop keeps an incomplete buffer untouched: an incomplete frame
consumes zero bytes. -/
theorem codecRun_none (buf : List Nat) (hb : buf.length ≠ 0)
    (hd : decodeFrame buf = .ok none) : codecRun buf = ⟨[], buf, false, false⟩ := by
  rw [codecRun.eq_def, if_neg hb]
  split
  · rename_i a heq
    rw [hd] at heq
    simp at heq
  · rfl
  · rename_i f n heq
    rw [hd] at heq
    simp at heq

/-- A decoded close frame is consumed, emitted, and destroys the socket,
stopping the loop. -/
theorem codecRun_close (buf : List Nat) (f : WsFrame) (n : Nat)
    (hb : buf.length ≠ 0) (hd : decodeFrame buf = .ok (some (f, n)))
    (hf : f.opcode = 0x8) : codecRun buf = ⟨[f], buf.drop n, true, false⟩ := by
  rw [codecRun.eq_def, if_neg hb]
  split
  · rename_i a heq
    rw [hd] at heq
    simp at heq
  · rename_i heq
    rw [hd] at heq
    simp at heq
  · rename_i g m heq
    rw [hd] at heq
    simp only [Except.ok.injEq, Option.some.injEq, Prod.mk.injEq] at heq
    obtain ⟨h1, h2⟩ := heq
    subst h1
    subst h2
    rw [if_pos hf]

/-- A decoded non-close frame is consumed and emitted, and the loop continues
on the remaining buffer. -/
theorem codecRun_step (buf : List Nat) (f : WsFrame) (n : Nat)
    (hb : buf.length ≠ 0) (hd : decodeFrame buf = .ok (some (f, n)))
    (hf : f.opcode ≠ 0x8) :
    codecRun buf = ⟨f :: (codecRun (buf.drop n)).frames, (codecRun (buf.drop n)).rest,
      (codecRun (buf.drop n)).destroyed, (codecRun (buf.drop n)).errored⟩ := by
  rw [codecRun.eq_def, if_neg hb]
  split
  · rename_i a heq
    rw [hd] at heq
    simp at heq
  · rename_i heq
    rw [hd] at heq
    simp at heq
  · rename_i g m heq
    rw [hd] at heq
    simp only [Except.ok.injEq, Option.some.injEq, Prod.mk.injEq] at heq
    obtain ⟨h1, h2⟩ := heq
    subst h1
    subst h2
    rw [if_neg hf]

/-- An extension of the byte stream cannot cure a decode error: once a run of
the loop throws, the run on any extension of the same buffer throws too. -/
theorem codecRun_append_err (e : List Nat) :
    ∀ (n : Nat) (buf : List Nat), buf.length = n →
      (codecRun buf).errored = true → (codecRun (buf ++ e)).errored = true := by
  intro n
  induction n using Nat.strong_induction_on with
  | _ n ih =>
    intro buf hn herr
    by_cases hb : buf.length = 0
    · rw [codecRun_zero buf hb] at herr
      simp at herr
    · cases hd : decodeFrame buf with
      | error u =>
          cases u
          rw [codecRun_err (buf ++ e)
            (by simp only [List.length_append]; omega)
            (decodeFrame_err_mono e hd)]
      | ok o =>
        cases o with
        | none =>
            rw [codecRun_none buf hb hd] at herr
            simp at herr
        | some p =>
          obtain ⟨f, m⟩ := p
          have hcons := decodeFrame_consumed hd
          by_cases hf : f.opcode = 0x8
          · rw [codecRun_close buf f m hb hd hf] at herr
            simp at herr
          · rw [codecRun_step buf f m hb hd hf] at herr
            simp only at herr
            rw [codecRun_step (buf ++ e) f m
              (by simp only [List.length_append]; omega)
              (decodeFrame_mono e hd) hf]
            simp only
            rw [List.drop_append_of_le_length hcons.2]
            exact ih (buf.drop m).length
              (by simp only [List.length_drop]; omega)
              (buf.drop m) rfl herr

/-- Extending a buffer whose run ended in a close frame: the same frames come
out and the extension lands in the leftover buffer of the destroyed socket. -/
theorem codecRun_append_destroyed (e : List Nat) :
    ∀ (n : Nat) (buf : List Nat), buf.length = n →
      (codecRun buf).errored = false → (codecRun buf).destroyed = true →
      codecRun (buf ++ e) =
        ⟨(codecRun buf).frames, (codecRun buf).rest ++ e, true, false⟩ := by
  intro n
  induction n using Nat.strong_induction_on with
  | _ n ih =>
    intro buf hn herr hdest
    by_cases hb : buf.length = 0
    · rw [codecRun_zero buf hb] at hdest
      simp at hdest
    · cases hd : decodeFrame buf with
      | error u =>
          cases u
          rw [codecRun_err buf hb hd] at herr
          simp at herr
      | ok o =>
        cases o with
        | none =>
            rw [codecRun_none buf hb hd] at hdest
            simp at hdest
        | some p =>
          obtain ⟨f, m⟩ := p
          have hcons := decodeFrame_consumed hd
          by_cases hf : f.opcode = 0x8
          · rw [codecRun_close buf f m hb hd hf]
            rw [codecRun_close (buf ++ e) f m
              (by simp only [List.length_append]; omega)
              (decodeFrame_mono e hd) hf]
            rw [List.drop_append_of_le_length hcons.2]
          · rw [codecRun_step buf f m hb hd hf] at herr hdest ⊢
            simp only at herr hdest ⊢
            rw [codecRun_step (buf ++ e) f m
              (by simp only [List.length_append]; omega)
              (decodeFrame_mono e hd) hf]
            rw [List.drop_append_of_le_length hcons.2]
            rw [ih (buf.drop m).length
              (by simp only [List.length_drop]; omega)
              (buf.drop m) rfl herr hdest]

/-- Extending a buffer whose run ended live (no error, no close): the frames of
the original run come first and the run continues on the leftover plus the
extension. -/
theorem codecRun_append_live (e : List Nat) :
    ∀ (n : Nat) (buf : List Nat), buf.length = n →
      (codecRun buf).errored = false → (codecRun buf).destroyed = false →
      codecRun (buf ++ e) =
        ⟨(codecRun buf).frames ++ (codecRun ((codecRun buf).rest ++ e)).frames,
          (codecRun ((codecRun buf).rest ++ e)).rest,
          (codecRun ((codecRun buf).rest ++ e)).destroyed,
          (codecRun ((codecRun buf).rest ++ e)).errored⟩ := by
  intro n
  induction n using Nat.strong_induction_on with
  | _ n ih =>
    intro buf hn herr hdest
    by_cases hb : buf.length = 0
    · have hnil : buf = [] := List.length_eq_zero.mp hb
      subst hnil
      rw [codecRun_zero [] rfl]
      simp only [List.nil_append]
    · cases hd : decodeFrame buf with
      | error u =>
          cases u
          rw [codecRun_err buf hb hd] at herr
          simp at herr
      | ok o =>
        cases o with
        | none =>
            rw [codecRun_none buf hb hd]
            simp only [List.nil_append]
        | some p =>
          obtain ⟨f, m⟩ := p
          have hcons := decodeFrame_consumed hd
          by_cases hf : f.opcode = 0x8
          · rw [codecRun_close buf f m hb hd hf] at hdest
            simp at hdest
          · rw [codecRun_step buf f m hb hd hf] at herr hdest ⊢
            simp only at herr hdest ⊢
            rw [codecRun_step (buf ++ e) f m
              (by simp only [List.length_append]; omega)
              (decodeFrame_mono e hd) hf]
            rw [List.drop_append_of_le_length hcons.2]
            rw [ih (buf.drop m).length
              (by simp only [List.length_drop]; omega)
              (buf.drop m) rfl herr hdest]
            simp [List.cons_append]

/-- Invariant of chunked delivery: as long as the whole stream never triggers
the oversized-frame throw, feeding the chunks one at a time yields exactly the
frames of the whole-stream run, never errors, agrees on destruction, and (while
the socket lives) holds exactly the whole-stream leftover in its buffer. -/
theorem codecFeed_invariant :
    ∀ (chunks : List (List Nat)),
      (codecRun chunks.flatten).errored = false →
      (codecFeedAll chunks).frames = (codecRun chunks.flatten).frames ∧
      (codecFeedAll chunks).errored = false ∧
      (codecFeedAll chunks).destroyed = (codecRun chunks.flatten).destroyed ∧
      ((codecRun chunks.flatten).destroyed = false →
        (codecFeedAll chunks).buffer = (codecRun chunks.flatten).rest) := by
  intro chunks
  induction chunks using List.reverseRecOn with
  | nil =>
      intro _
      rw [show (List.flatten ([] : List (List Nat))) = [] from rfl,
          codecRun_zero [] rfl]
      exact ⟨rfl, rfl, rfl, fun _ => rfl⟩
  | append_singleton l c ih =>
      intro herr
      have hjoin : (l ++ [c]).flatten = l.flatten ++ c := by simp
      rw [hjoin] at herr ⊢
      have herrl : (codecRun l.flatten).errored = false := by
        cases hcase : (codecRun l.flatten).errored with
        | false => rfl
        | true =>
            have := codecRun_append_err c l.flatten.length l.flatten rfl hcase
            rw [this] at herr
            cases herr
      obtain ⟨i1, i2, i3, i4⟩ := ih herrl
      have hfeed : codecFeedAll (l ++ [c]) = codecFeed (codecFeedAll l) c := by
        simp [codecFeedAll]
      rw [hfeed]
      cases hdest : (codecRun l.flatten).destroyed with
      | true =>
          have hstdes : (codecFeedAll l).destroyed = true := by rw [i3, hdest]
          have hskip : codecFeed (codecFeedAll l) c = codecFeedAll l := by
            simp [codecFeed, hstdes]
          have hw := codecRun_append_destroyed c l.flatten.length l.flatten rfl herrl hdest
          rw [hskip, hw]
          refine ⟨by rw [i1], i2, by rw [hstdes], fun hcontra => ?_⟩
          cases hcontra
      | false =>
          have hstdes : (codecFeedAll l).destroyed = false := by rw [i3, hdest]
          have hbuf : (codecFeedAll l).buffer = (codecRun l.flatten).rest := i4 hdest
          have hlive := codecRun_append_live c l.flatten.length l.flatten rfl herrl hdest
          have hRerr : (codecRun ((codecRun l.flatten).rest ++ c)).errored = false := by
            rw [hlive] at herr
            exact herr
          have hfeedeq : codecFeed (codecFeedAll l) c =
              ⟨(codecRun ((codecRun l.flatten).rest ++ c)).rest,
               (codecFeedAll l).frames ++ (codecRun ((codecRun l.flatten).rest ++ c)).frames,
               (codecRun ((codecRun l.flatten).rest ++ c)).destroyed,
               (codecFeedAll l).errored⟩ := by
            simp [codecFeed, hstdes, hbuf, hRerr]
          rw [hfeedeq, hlive]
          exact ⟨by rw [i1], i2, rfl, fun _ => rfl⟩

/-- C1: for every byte stream on which the frame loop never throws (no frame
advertises a 64-bit length above the 32-bit-safe bound), every way of
splitting the stream into consecutive chunks and feeding them one `data` event
at a time through the accumulate-then-decode loop yields exactly the frames of
the stream delivered whole (in order, with opcode and payload); and an
incomplete frame consumes zero bytes: a buffer on which `decodeFrame` reports
an incomplete prefix is kept in full with no frame emitted. -/
theorem c1_frame_codec_split_invariance (chunks : List (List Nat))
    (herr : (codecRun chunks.flatten).errored = false) :
    (codecFeedAll chunks).frames = (codecRun chunks.flatten).frames ∧
    (∀ buf : List Nat, decodeFrame buf = .ok none →
      (codecRun buf).rest = buf ∧ (codecRun buf).frames = []) := by
  refine ⟨(codecFeed_invariant chunks herr).1, fun buf hd => ?_⟩
  by_cases hb : buf.length = 0
  · rw [codecRun_zero buf hb]
    exact ⟨rfl, rfl⟩
  · rw [codecRun_none buf hb hd]
    exact ⟨rfl, rfl⟩

/-- C1 witness: a one-byte-payload text frame split across two chunks decodes
to the same frames as the whole buffer at once. -/
theorem c1_frame_codec_split_invariance_witness :
    (codecFeedAll [[0x81, 0x01], [0x41]]).frames
      = (codecRun [[0x81, 0x01], [0x41]].flatten).frames :=
  (c1_frame_codec_split_invariance [[0x81, 0x01], [0x41]]
    (by
      rw [show ([[0x81, 0x01], [0x41]] : List (List Nat)).flatten
            = [0x81, 0x01, 0x41] by rfl]
      rw [codecRun_step [0x81, 0x01, 0x41] ⟨1, [0x41]⟩ 3 (by decide) (by rfl)
        (by decide)]
      rw [show List.drop 3 [0x81, 0x01, 0x41] = ([] : List Nat) by rfl]
      rw [codecRun_zero [] rfl])).1
